import Mathlib

/-!
Formal model of `FUSEtoOPGEE.py`: a shallow embedding of the
spreadsheet-extraction / value-conversion / record-assembly / document-merge
pipeline, together with theorems settling the specification claims.

Conventions of the embedding:
* A spreadsheet cell is `Cell` (missing / numeric / text); the loaded sheet is
  a rectangular `Sheet` with a total cell function, mirroring the NaN-padded
  pandas DataFrame.
* `sheet.iloc[a:b, col]` uses Python slice semantics on the row positions:
  an out-of-range slice silently truncates (it never raises), while the scalar
  column index must be in range.  The truncation is modelled exactly.
* Python dictionaries are modelled as association lists in insertion order
  (first binding wins for lookup, as keys are unique in the program).
* Operations that can raise a Python exception (`KeyError`, `TypeError`,
  `AttributeError`, `IndexError`) are modelled with `Except` / `Option`.
-/

namespace FUSEtoOPGEE

/-- A raw spreadsheet cell: missing (NaN), numeric, or text. -/
inductive Cell where
  | na : Cell
  | num (q : Rat) : Cell
  | str (s : String) : Cell
deriving DecidableEq, Repr

/-- The loaded "Inputs" sheet: a rectangular table of cells, as produced by
`pd.read_excel`.  `cell r c` is the cell at 0-based row `r`, column `c`. -/
structure Sheet where
  nrows : Nat
  ncols : Nat
  cell : Nat → Nat → Cell

/-- `sheet.iloc[a:b, col].tolist()`: the cells of column `col` at row
positions `a, a+1, …, b-1`, truncated at the sheet's row count
(Python slice semantics: a row slice that runs past the end silently
shortens; it never raises). -/
def ilocSlice (sh : Sheet) (a b col : Nat) : List Cell :=
  (((List.range sh.nrows).drop a).take (b - a)).map (fun r => sh.cell r col)

/-- The fixed 15-range row schema of `extract_field_data` (1-indexed,
inclusive), literally from the source. -/
def ranges : List (Nat × Nat) :=
  [(8, 16), (19, 30), (33, 33), (35, 41), (45, 50),
   (57, 58), (61, 67), (69, 71), (76, 76),
   (85, 87), (91, 93), (95, 97),
   (101, 105), (107, 112), (114, 114)]

/-- The loop body of `extract_field_data`: concatenate, in schema order,
`sheet.iloc[start-1:end, col].tolist()` for each `(start, end)` range. -/
def extractRanges (sh : Sheet) (col : Nat) : List (Nat × Nat) → List Cell
  | [] => []
  | (s, e) :: rest => ilocSlice sh (s - 1) e col ++ extractRanges sh col rest

/-- `extract_field_data(sheet, col)`. -/
def extract_field_data (sh : Sheet) (col : Nat) : List Cell :=
  extractRanges sh col ranges

/-- A sheet tall enough to cover every configured range (114 rows). -/
def sheetFull : Sheet := ⟨114, 20, fun _ _ => Cell.na⟩

/-- A sheet of only 100 rows: the last three configured ranges
(101–105, 107–112, 114–114) run past its bounds. -/
def sheetShort : Sheet := ⟨100, 20, fun _ _ => Cell.na⟩

/-- A value held in a `field_updates` dictionary: either an (already
stringified) scalar, or the raw one-hot list kept for `ecosystem_richness`
and `field_development_intensity`. -/
inductive Value where
  | s (v : String) : Value
  | onehot (l : List Cell) : Value
deriving DecidableEq, Repr

/-- First-binding lookup in an association list (Python dict read). -/
def alookup (k : String) : List (String × α) → Option α
  | [] => none
  | (k', v) :: rest => if k' = k then some v else alookup k rest

/-- In-place overwrite of the first binding of `k` (Python dict write for an
existing key; keys are unique in the program, so first-binding suffices). -/
def aupdate (k : String) (v : α) : List (String × α) → List (String × α)
  | [] => []
  | (k', v') :: rest => if k' = k then (k', v) :: rest else (k', v') :: aupdate k v rest

/-- Lookup in an integer-keyed conversion table. -/
def alookupN (k : Nat) : List (Nat × String) → Option String
  | [] => none
  | (k', v) :: rest => if k' = k then some v else alookupN k rest

/-- Python `str.isdigit()` for the ASCII strings this program produces:
non-empty and all characters are decimal digits.  In particular it is false
for `"2.0"` (a dot is not a digit) and `"-2"` (a minus sign is not a digit). -/
def isdigitStr (s : String) : Bool := !s.isEmpty && s.toList.all Char.isDigit

/-- Decimal digits to the natural number they denote (Python `int(value)` on
an all-digit string). -/
def digitsToNat (ds : List Char) : Nat :=
  ds.foldl (fun a c => 10 * a + (c.toNat - 48)) 0

def strToNat (s : String) : Nat := digitsToNat s.toList

/-- Python `val == 1` on a raw cell: true exactly for the number 1
(`1 == 1`, `1.0 == 1`); a text cell `"1"` or a missing cell compares false. -/
def cellIsOne : Cell → Bool
  | .num q => q == 1
  | _ => false

/-- The loop `for index, val in enumerate(value, 1): if val == 1: value = index`:
the 1-based position of the LAST element equal to 1, if any. -/
def lastOneIdx (l : List Cell) : Option Nat :=
  ((l.enum.filter (fun p => cellIsOne p.2)).map (fun p => p.1 + 1)).getLast?

/-- The one-hot branch of `apply_conversions` for one value:
`Except.ok (some lbl)` means the value is converted to `lbl`;
`Except.ok none` means it is left untouched (the Python loop variable stayed
falsy); `Except.error` models the exception Python raises.
* list with a last 1 at position `i`: look `i` up in the table (a missing
  entry raises `KeyError`);
* non-empty list with no 1: the loop leaves `value` as the list, which is
  truthy, so `mapping[value]` raises `TypeError` (a list is unhashable);
* empty list: falsy, silently skipped;
* a string value: no character compares equal to 1, so a non-empty string is
  used as a lookup key and raises `KeyError`; an empty string is skipped. -/
def oneHotResult (mapping : List (Nat × String)) : Value → Except String (Option String)
  | .onehot l =>
    match lastOneIdx l with
    | some i =>
      match alookupN i mapping with
      | some lbl => .ok (some lbl)
      | none => .error "KeyError"
    | none => if l.isEmpty then .ok none else .error "TypeError: unhashable type"
  | .s sv => if sv.isEmpty then .ok none else .error "KeyError"

def isOnehotKey (key : String) : Bool :=
  key == "ecosystem_richness" || key == "field_development_intensity"

/-- One iteration of the `apply_conversions` loop body for `(key, mapping)`. -/
def convertKey (key : String) (mapping : List (Nat × String))
    (fu : List (String × Value)) : Except String (List (String × Value)) :=
  match alookup key fu with
  | none => .ok fu
  | some value =>
    if isOnehotKey key then
      match oneHotResult mapping value with
      | .ok (some lbl) => .ok (aupdate key (.s lbl) fu)
      | .ok none => .ok fu
      | .error e => .error e
    else
      match value with
      | .s sv =>
        if isdigitStr sv then
          match alookupN (strToNat sv) mapping with
          | some lbl => .ok (aupdate key (.s lbl) fu)
          | none => .ok fu
        else .ok fu
      | .onehot _ => .error "AttributeError"

/-- `apply_conversions(field_updates, mappings)`: iterate the mappings in
insertion order, mutating the record; an uncaught exception aborts the run. -/
def apply_conversions (mappings : List (String × List (Nat × String)))
    (fu : List (String × Value)) : Except String (List (String × Value)) :=
  match mappings with
  | [] => .ok fu
  | (key, mapping) :: rest =>
    match convertKey key mapping fu with
    | .ok fu' => apply_conversions rest fu'
    | .error e => .error e

/-- The `conversion_mappings` literal of `main`. -/
def conversion_mappings : List (String × List (Nat × String)) :=
  [("flood_gas_type", [(1, "NG"), (2, "N2"), (3, "CO2")]),
   ("upgrader_type", [(0, "None"), (1, "Delayed Coking"), (2, "Hydroconvention"),
      (3, "Combined Hydroconversion and Fluid Coking")]),
   ("gas_processing_path", [(1, "None"), (2, "Minimal"), (3, "Acid Gas"),
      (4, "Wet Gas"), (5, "Acid Wet Gas"), (6, "Sour Gas Reinjection"),
      (7, "CO2-EOR Membrane"), (8, "CO2-EOR Ryan Holmes")]),
   ("ecosystem_richness", [(1, "Low carbon"), (2, "Med carbon"), (3, "High carbon")]),
   ("field_development_intensity", [(1, "Low"), (2, "Med"), (3, "High")])]

/-- The table `apply_conversions` consults for a given parameter name. -/
def mappingOf (key : String) : List (Nat × String) :=
  (alookup key conversion_mappings).getD []

/-- What the scalar branch of `apply_conversions` does to one value `v`:
replaced by the table label exactly when `v` is all digits and its integer
form is a key of the table; otherwise left unchanged. -/
def scalarResult (m : List (Nat × String)) (v : String) : Value :=
  if isdigitStr v then
    match alookupN (strToNat v) m with
    | some lbl => Value.s lbl
    | none => Value.s v
  else Value.s v

/-- The `parameters` literal of `main`: the ordered parameter-name list the
extracted values are zipped onto (65 names). -/
def parameters : List String :=
  ["downhole_pump", "water_reinjection", "natural_gas_reinjection",
   "water_flooding", "gas_lifting",
   "gas_flooding", "steam_flooding", "oil_sands_mine_upgrader",
   "oil_sands_mine_no_upgrader",
   "country", "name", "age", "depth", "oil_prod",
   "num_prod_wells", "num_water_inj_wells", "well_diam",
   "prod_index", "res_press", "res_temp", "offshore",
   "API", "gas_comp_N2", "gas_comp_CO2", "gas_comp_C1", "gas_comp_C2",
   "gas_comp_C3", "gas_comp_C4",
   "gas_comp_H2S", "GOR", "WOR", "WIR", "GLIR", "GFIR",
   "flood_gas_type", "frac_CO2_breakthrough", "FILLER_source_of_CO2",
   "FILLER_perc_seq_credit", "SOR", "fraction_elec_onsite",
   "fraction_remaining_gas_inj", "fraction_water_reinjected",
   "fraction_steam_cogen",
   "fraction_steam_solar", "heater_treater", "stabilizer_column",
   "upgrader_type",
   "gas_processing_path", "FOR", "frac_venting", "fraction_diluent",
   "ecosystem_richness",
   "field_development_intensity", "frac_transport_tanker",
   "frac_transport_barge",
   "frac_transport_pipeline", "frac_transport_rail", "frac_transport_truck",
   "transport_dist_tanker", "transport_dist_barge", "transport_dist_pipeline",
   "transport_dist_rail",
   "transport_dist_truck", "ocean_tanker_size", "small_sources_emissions"]

/-- `values[51:54]` — the list assigned to `ecosystem_richness_values`. -/
def ecosystemSlice (values : List Cell) : List Cell := (values.drop 51).take 3

/-- `values[54:57]` — the list assigned to `field_development_intensity_values`. -/
def fdiSlice (values : List Cell) : List Cell := (values.drop 54).take 3

/-- Python `list.pop(i)` for a non-negative index: removes the element at
`i`, raising `IndexError` (modelled as `none`) when out of range. -/
def popAt (l : List Cell) (i : Nat) : Option (List Cell) :=
  if i < l.length then some (l.eraseIdx i) else none

/-- The pop loop of `main`: `for index in sorted([52,53,54,55], reverse=True):
values.pop(index)` — pops indices 55, 54, 53, 52 in that order. -/
def popSpecial (values : List Cell) : Option (List Cell) :=
  (popAt values 55).bind fun v1 =>
    (popAt v1 54).bind fun v2 =>
      (popAt v2 53).bind fun v3 => popAt v3 52

/-- A concrete 69-value extraction result with pairwise distinct, position-
labelled cells. -/
def vals69 : List Cell := (List.range 69).map (fun k => Cell.str (toString k))

/-- Longest prefix of decimal digits, and the remainder. -/
def spanDigits : List Char → List Char × List Char
  | [] => ([], [])
  | c :: cs =>
    if c.isDigit then
      match spanDigits cs with
      | (ds, rest) => (c :: ds, rest)
    else ([], c :: cs)

/-- An optional leading sign; `true` means negative. -/
def parseSign : List Char → Bool × List Char
  | '-' :: cs => (true, cs)
  | '+' :: cs => (false, cs)
  | cs => (false, cs)

/-- The exponent tail of a float literal: empty, or `e`/`E`, an optional
sign, and at least one digit consuming the whole remainder. -/
def parseExpPart : List Char → Option Int
  | [] => some 0
  | c :: rest =>
    if c = 'e' ∨ c = 'E' then
      match parseSign rest with
      | (eneg, r1) =>
        match spanDigits r1 with
        | (ds, r2) =>
          if ds ≠ [] ∧ r2 = [] then
            some (if eneg then -(digitsToNat ds : Int) else (digitsToNat ds : Int))
          else none
    else none

/-- The syntactic decomposition of a float literal: sign, integer digits,
fractional digits, exponent.  `none` models Python's `ValueError`. -/
def parseParts (s : String) : Option (Bool × List Char × List Char × Int) :=
  match parseSign s.toList with
  | (neg, cs0) =>
    match spanDigits cs0 with
    | (ip, cs1) =>
      match (match cs1 with
             | '.' :: rest => spanDigits rest
             | l => ([], l)) with
      | (fp, cs2) =>
        if ip = [] ∧ fp = [] then none
        else
          match parseExpPart cs2 with
          | none => none
          | some e => some (neg, ip, fp, e)

/-- The mantissa of a decomposed float literal, as an exact rational. -/
def ratMant (ip fp : List Char) : Rat :=
  (digitsToNat ip : Rat) + (digitsToNat fp : Rat) / ((10 : Rat) ^ fp.length)

/-- The magnitude: mantissa scaled by the decimal exponent. -/
def ratMag (ip fp : List Char) (e : Int) : Rat :=
  if 0 ≤ e then ratMant ip fp * (10 : Rat) ^ e.toNat
  else ratMant ip fp / (10 : Rat) ^ (-e).toNat

/-- The exact rational value denoted by a decomposed float literal. -/
def ratValue (neg : Bool) (ip fp : List Char) (e : Int) : Rat :=
  if neg then -ratMag ip fp e else ratMag ip fp e

/-- Python `float(value)` on the decimal literals this program produces:
optional sign, digits with an optional fractional part (at least one digit
overall), optional exponent.  Returns the exact rational value; `none`
models `ValueError`.  (Not modelled: `inf`/`nan` spellings, underscore
separators, surrounding whitespace, and IEEE rounding of extreme exponents
— none of which arise from `str()` of a spreadsheet number.) -/
def parseFloat (s : String) : Option Rat :=
  match parseParts s with
  | none => none
  | some (neg, ip, fp, e) => some (ratValue neg ip fp e)

/-- The GOR/WOR fixup of `create_field_element`: parse as float with a
fall-back of `0.0` on `ValueError`; an exact-zero result forces the value to
the epsilon constant `"0.00001"`. -/
def gorFix (value : String) : String :=
  match parseFloat value with
  | none => "0.00001"
  | some q => if q = 0 then "0.00001" else value

/-- An XML element: tag, attributes in order, text, children in order. -/
inductive Node where
  | mk (tag : String) (attrs : List (String × String)) (text : String)
      (kids : List Node) : Node

def Node.tag : Node → String
  | .mk t _ _ _ => t

def Node.attrs : Node → List (String × String)
  | .mk _ a _ _ => a

def Node.text : Node → String
  | .mk _ _ x _ => x

def Node.kids : Node → List Node
  | .mk _ _ _ k => k

/-- The `class` attribute chosen for the two nested-process parameters. -/
def processClass (key : String) : String :=
  if key = "fraction_diluent" then "HeavyOilDilution" else "CrudeOilDewatering"

/-- The direct children `create_field_element` emits for one `(key, value)`
entry.  The record values reaching this loop are already strings
(`pd.isna` is false on a string, so the stringification line is the
identity here).  GOR/WOR get the epsilon fixup; the two nested-process keys
get a disabled placeholder `Process` wrapper plus an enabled `Process`
wrapper holding the value as a nested `A` leaf; every other key gets a flat
`A` leaf. -/
def entryNodes (key value : String) : List Node :=
  let v := if key = "GOR" ∨ key = "WOR" then gorFix value else value
  if key = "fraction_diluent" ∨ key = "heater_treater" then
    [Node.mk "Process" [("class", processClass key), ("enabled", "false")] "" [],
     Node.mk "Process" [("class", processClass key)] ""
       [Node.mk "A" [("name", key)] v []]]
  else [Node.mk "A" [("name", key)] v []]

def fieldKids : List (String × String) → List Node
  | [] => []
  | (k, v) :: rest => entryNodes k v ++ fieldKids rest

/-- `create_field_element(field_name, field_updates)`: a
`<Field name=… modifies="template">` element with a `<Group>all</Group>`
child followed by the per-entry children in record order. -/
def create_field_element (field_name : String)
    (fu : List (String × String)) : Node :=
  Node.mk "Field" [("name", field_name), ("modifies", "template")] ""
    (Node.mk "Group" [] "all" [] :: fieldKids fu)

/-- The first direct `A` child carrying `name=key`, and its text. -/
def findLeaf (key : String) : List Node → Option String
  | [] => none
  | n :: rest =>
    if n.tag = "A" ∧ alookup "name" n.attrs = some key then some n.text
    else findLeaf key rest

/-!
The document model for the merge step.  The program reads back documents it
wrote itself, in which `Analysis` and `Field` elements are direct children
of the `<Model>` root; the document is therefore modelled as the root's
child list, on which `findall(".//…")` / `find(".//…")` and `root.remove` /
`root.append` coincide with list traversal.
-/

/-- Match of the XPath pattern `Field[@modifies="template"]`. -/
def isFieldTemplate (n : Node) : Bool :=
  decide (n.tag = "Field" ∧ alookup "modifies" n.attrs = some "template")

/-- `node.get('name')`. -/
def nodeName (n : Node) : Option String := alookup "name" n.attrs

/-- The keep-condition of the stale-field sweep: a node survives unless it
is a template Field whose name is missing (Python `None` is never in the
set) or not in the required set. -/
def keepNode (required : List String) (n : Node) : Bool :=
  !isFieldTemplate n ||
    (match nodeName n with
     | some nm => required.contains nm
     | none => false)

/-- The stale-field sweep of `main`: every template Field whose name is not
in the required set is removed; everything else is kept. -/
def removeStale (required : List String) (doc : List Node) : List Node :=
  doc.filter (keepNode required)

/-- `root.find(f'.//Field[@name="{nm}"][@modifies="template"]')` followed by
`root.remove`: delete the first template Field named `nm`, if any. -/
def removeFirstField (nm : String) : List Node → List Node
  | [] => []
  | n :: rest =>
    if isFieldTemplate n ∧ nodeName n = some nm then rest
    else n :: removeFirstField nm rest

/-- The replace loop of `main`: for each record in insertion order, remove
the first existing node with the same key, then append a freshly built
Field element at the end of the root. -/
def upsertFields : List (String × List (String × String)) → List Node → List Node
  | [], doc => doc
  | (nm, r) :: rest, doc =>
    upsertFields rest (removeFirstField nm doc ++ [create_field_element nm r])

/-- The `analysis_updates` literal of `main`. -/
def analysis_updates : List (String × String) :=
  [("functional_unit", "oil"), ("GWP_horizon", "100"), ("GWP_version", "AR5")]

/-- Match of the XPath pattern `Analysis[@name="FUSE_run"]`. -/
def isAnalysisFUSE (n : Node) : Bool :=
  decide (n.tag = "Analysis" ∧ nodeName n = some "FUSE_run")

/-- `analysis.find(f'A[@name="{key}"]')`: overwrite the text of the first
`A` child named `key`, or append a new `A` leaf if none exists. -/
def upsertLeaf (key value : String) : List Node → List Node
  | [] => [Node.mk "A" [("name", key)] value []]
  | n :: rest =>
    if n.tag = "A" ∧ nodeName n = some key then
      Node.mk n.tag n.attrs value n.kids :: rest
    else n :: upsertLeaf key value rest

/-- `any(group.text == 'all' for group in analysis.findall('Group'))`. -/
def hasGroupAll (kids : List Node) : Bool :=
  kids.any (fun g => g.tag == "Group" && g.text == "all")

def ensureGroupAll (kids : List Node) : List Node :=
  if hasGroupAll kids then kids else kids ++ [Node.mk "Group" [] "all" []]

/-- The in-place mutation of the Analysis element: ensure the
`<Group>all</Group>` marker exists once, then upsert the three global
settings in dictionary order. -/
def analysisApply (n : Node) : Node :=
  Node.mk n.tag n.attrs n.text
    (analysis_updates.foldl (fun ks kv => upsertLeaf kv.1 kv.2 ks)
      (ensureGroupAll n.kids))

/-- Locate (first match) or create (appended at the end of the root) the
singleton `FUSE_run` Analysis element, and apply the settings upsert. -/
def upsertAnalysis : List Node → List Node
  | [] => [analysisApply (Node.mk "Analysis" [("name", "FUSE_run")] "" [])]
  | n :: rest =>
    if isAnalysisFUSE n then analysisApply n :: rest
    else n :: upsertAnalysis rest

/-- The whole merge of `main`: Analysis upsert, stale-field sweep keyed on
the names produced by this run, then the per-record replace loop. -/
def mergeDoc (recs : List (String × List (String × String)))
    (doc : List Node) : List Node :=
  upsertFields recs (removeStale (recs.map Prod.fst) (upsertAnalysis doc))

/-- The names (possibly missing) of the template Field nodes of a document,
in document order.  Key uniqueness is uniqueness of this list. -/
def fieldNames (doc : List Node) : List (Option String) :=
  (doc.filter (fun n => isFieldTemplate n)).map nodeName

/-- All template Field nodes carrying the name `nm`, in document order. -/
def fieldsNamed (nm : String) (doc : List Node) : List Node :=
  doc.filter (fun n => isFieldTemplate n && decide (nodeName n = some nm))

/-- Length of one extracted slice: the requested size, clamped to the rows
that actually exist. -/
lemma ilocSlice_length (sh : Sheet) (a b col : Nat) :
    (ilocSlice sh a b col).length = min (b - a) (sh.nrows - a) := by
  simp [ilocSlice]

/-- Length of the concatenated extraction, range by range. -/
lemma extractRanges_length (sh : Sheet) (col : Nat) :
    ∀ rs : List (Nat × Nat),
      (extractRanges sh col rs).length =
        (rs.map (fun p => min (p.2 - (p.1 - 1)) (sh.nrows - (p.1 - 1)))).sum
  | [] => by simp [extractRanges]
  | (s, e) :: rest => by
    simp [extractRanges, ilocSlice_length, extractRanges_length sh col rest]

/-- When every range fits inside the sheet, the clamping is inactive. -/
lemma extractRanges_length_covered (sh : Sheet) (col : Nat) :
    ∀ rs : List (Nat × Nat), (∀ p ∈ rs, p.2 ≤ sh.nrows) →
      (extractRanges sh col rs).length =
        (rs.map (fun p => p.2 - (p.1 - 1))).sum
  | [], _ => by simp [extractRanges]
  | (s, e) :: rest, h => by
    have he : e ≤ sh.nrows := h (s, e) (List.mem_cons_self _ _)
    have ih := extractRanges_length_covered sh col rest
      (fun p hp => h p (List.mem_cons_of_mem _ hp))
    simp only [extractRanges, List.length_append, ilocSlice_length, ih,
      List.map_cons, List.sum_cons]
    omega

/-- C8: for every column of a sheet whose row count covers all 15 configured
row ranges, `extract_field_data` returns a list whose length is the sum of
the 15 range sizes, 69, regardless of the cells' contents (the cell function
is arbitrary, so missing cells are included). -/
theorem extract_length_full (sh : Sheet) (col : Nat)
    (hrows : 114 ≤ sh.nrows) (hcol : col < sh.ncols) :
    (extract_field_data sh col).length = 69 := by
  have hcov : ∀ p ∈ ranges, p.2 ≤ 114 := by decide
  show (extractRanges sh col ranges).length = 69
  rw [extractRanges_length_covered sh col ranges
    (fun p hp => le_trans (hcov p hp) hrows)]
  simp only [ranges, List.map_cons, List.map_nil, List.sum_cons, List.sum_nil]
  omega

theorem extract_length_full_witness :
    114 ≤ sheetFull.nrows ∧ 7 < sheetFull.ncols ∧
      (extract_field_data sheetFull 7).length = 69 :=
  ⟨by decide, by decide, extract_length_full sheetFull 7 (by decide) (by decide)⟩

/-- C9 (amended): extraction never aborts on a short sheet; the returned
list's length is the sum of the range sizes clamped to the sheet's row count
(pandas positional row slices silently truncate instead of raising). -/
theorem extract_length_clamped (sh : Sheet) (col : Nat) :
    (extract_field_data sh col).length =
      (ranges.map (fun p => min (p.2 - (p.1 - 1)) (sh.nrows - (p.1 - 1)))).sum :=
  extractRanges_length sh col ranges

/-- C9 (counterexample): on a 100-row sheet, three configured ranges extend
beyond the sheet's bounds, yet `extract_field_data` does not fail: it returns
a shortened extraction result (57 values instead of 69), and even the
fixed-index pops of `main` still succeed on it, so the run continues. -/
theorem extract_truncates_short_sheet :
    (extract_field_data sheetShort 7).length = 57 ∧ 57 < 69 ∧
    (popSpecial (extract_field_data sheetShort 7)).isSome = true := by
  refine ⟨rfl, by decide, ?_⟩
  decide

/-- C7: on `ecosystem_richness`, the one-hot list `[0,0,1]` converts to the
label at 1-based position 3, `"High carbon"`, and `[1,0,0]` to position 1,
`"Low carbon"`. -/
theorem onehot_positions_resolve :
    apply_conversions conversion_mappings
        [("ecosystem_richness", Value.onehot [Cell.num 0, Cell.num 0, Cell.num 1])]
      = .ok [("ecosystem_richness", Value.s "High carbon")] ∧
    apply_conversions conversion_mappings
        [("ecosystem_richness", Value.onehot [Cell.num 1, Cell.num 0, Cell.num 0])]
      = .ok [("ecosystem_richness", Value.s "Low carbon")] :=
  ⟨rfl, rfl⟩

/-- C2: a NON-empty one-hot list with no element equal to 1 is NOT silently
passed through: the loop variable keeps the whole list, a non-empty list is
truthy, and `mapping[value]` then raises `TypeError` (lists are unhashable),
aborting the run.  (Only the empty list is silently skipped.) -/
theorem onehot_no_active_position_raises :
    apply_conversions conversion_mappings
        [("ecosystem_richness", Value.onehot [Cell.num 0, Cell.num 0, Cell.num 0])]
      = .error "TypeError: unhashable type" ∧
    apply_conversions conversion_mappings
        [("ecosystem_richness", Value.onehot [])]
      = .ok [("ecosystem_richness", Value.onehot [])] :=
  ⟨rfl, rfl⟩

lemma alookup_aupdate_other {α : Type} (k k' : String) (v : α)
    (fu : List (String × α)) (hne : k ≠ k') :
    alookup k (aupdate k' v fu) = alookup k fu := by
  induction fu with
  | nil => rfl
  | cons p rest ih =>
    obtain ⟨q, w⟩ := p
    by_cases hq : q = k'
    · rw [hq]
      have hqk : k' ≠ k := fun h => hne h.symm
      simp [aupdate, alookup, hqk]
    · simp [aupdate, alookup, hq]
      split <;> simp [ih]

lemma alookup_aupdate_self {α : Type} (k : String) (v : α)
    (fu : List (String × α)) (h : (alookup k fu).isSome) :
    alookup k (aupdate k v fu) = some v := by
  induction fu with
  | nil => simp [alookup] at h
  | cons p rest ih =>
    obtain ⟨q, w⟩ := p
    by_cases hq : q = k
    · subst hq
      simp [aupdate, alookup]
    · simp [alookup, hq] at h
      simp [aupdate, alookup, hq, ih h]

/-- A `convertKey` step for a different key leaves this key's binding alone. -/
lemma convertKey_other (key key' : String) (m : List (Nat × String))
    (fu fu' : List (String × Value)) (hne : key ≠ key')
    (h : convertKey key' m fu = .ok fu') :
    alookup key fu' = alookup key fu := by
  simp only [convertKey] at h
  split at h
  · cases h; rfl
  · split at h
    · split at h
      · cases h; exact alookup_aupdate_other key key' _ fu hne
      · cases h; rfl
      · cases h
    · split at h
      · split at h
        · split at h
          · cases h; exact alookup_aupdate_other key key' _ fu hne
          · cases h; rfl
        · cases h; rfl
      · cases h

/-- The scalar branch of `apply_conversions`, characterized. -/
lemma convertKey_scalar (key v : String) (m : List (Nat × String))
    (fu : List (String × Value))
    (hk : isOnehotKey key = false) (hv : alookup key fu = some (Value.s v)) :
    ∃ fu', convertKey key m fu = .ok fu' ∧
      alookup key fu' = some (scalarResult m v) := by
  by_cases hd : isdigitStr v = true
  · cases hl : alookupN (strToNat v) m with
    | some lbl =>
      refine ⟨aupdate key (Value.s lbl) fu, ?_, ?_⟩
      · simp [convertKey, hv, hk, hd, hl]
      · rw [alookup_aupdate_self key _ fu (by simp [hv])]
        simp [scalarResult, hd, hl]
    | none =>
      refine ⟨fu, ?_, ?_⟩
      · simp [convertKey, hv, hk, hd, hl]
      · simp [scalarResult, hd, hl, hv]
  · refine ⟨fu, ?_, ?_⟩
    · simp [convertKey, hv, hk, hd]
    · simp [scalarResult, hd, hv]

/-- `apply_conversions` over an appended mapping list factors through an
intermediate record. -/
lemma apply_conversions_append (ms1 ms2 : List (String × List (Nat × String)))
    (fu fu' : List (String × Value))
    (h : apply_conversions (ms1 ++ ms2) fu = .ok fu') :
    ∃ mid, apply_conversions ms1 fu = .ok mid ∧
      apply_conversions ms2 mid = .ok fu' := by
  induction ms1 generalizing fu with
  | nil => exact ⟨fu, rfl, h⟩
  | cons hd tl ih =>
    obtain ⟨k, m⟩ := hd
    simp only [List.cons_append, apply_conversions] at h ⊢
    cases hc : convertKey k m fu with
    | ok mid0 =>
      rw [hc] at h
      exact ih mid0 h
    | error e => rw [hc] at h; cases h

/-- Mappings that never mention `key` leave its binding alone. -/
lemma apply_conversions_absent (key : String)
    (ms : List (String × List (Nat × String)))
    (fu fu' : List (String × Value)) (hk : ∀ p ∈ ms, p.1 ≠ key)
    (h : apply_conversions ms fu = .ok fu') :
    alookup key fu' = alookup key fu := by
  induction ms generalizing fu with
  | nil => cases h; rfl
  | cons hd tl ih =>
    obtain ⟨k, m⟩ := hd
    simp only [apply_conversions] at h
    cases hc : convertKey k m fu with
    | ok mid0 =>
      rw [hc] at h
      rw [ih mid0 (fun p hp => hk p (List.mem_cons_of_mem _ hp)) h]
      exact convertKey_other key k m fu mid0
        (fun he => hk (k, m) (List.mem_cons_self _ _) he.symm) hc
    | error e => rw [hc] at h; cases h

/-- The full `apply_conversions` run, seen from one scalar key sitting at a
known position of the mapping list. -/
lemma apply_conversions_scalar_at
    (pre post : List (String × List (Nat × String)))
    (m : List (Nat × String)) (key v : String)
    (fu fu' : List (String × Value))
    (hk : isOnehotKey key = false)
    (hpre : ∀ p ∈ pre, p.1 ≠ key) (hpost : ∀ p ∈ post, p.1 ≠ key)
    (hv : alookup key fu = some (Value.s v))
    (hok : apply_conversions (pre ++ (key, m) :: post) fu = .ok fu') :
    alookup key fu' = some (scalarResult m v) := by
  obtain ⟨mid, h1, h2⟩ := apply_conversions_append pre _ fu fu' hok
  have hmid : alookup key mid = some (Value.s v) := by
    rw [apply_conversions_absent key pre fu mid hpre h1]; exact hv
  obtain ⟨fu'', hc, hval⟩ := convertKey_scalar key v m mid hk hmid
  simp only [apply_conversions] at h2
  rw [hc] at h2
  rw [apply_conversions_absent key post fu'' fu' hpost h2]
  exact hval

/-- C10: `apply_conversions` replaces a scalar parameter value only when it
is a string made entirely of decimal digits whose integer form is a key of
the parameter's table; any other rendering (e.g. `"2.0"`, `"-2"`) passes
through unchanged even when the corresponding integer is mapped. -/
theorem scalar_codes_require_digit_strings
    (r r' : List (String × Value)) (key v : String)
    (hkey : key = "flood_gas_type" ∨ key = "upgrader_type" ∨
      key = "gas_processing_path")
    (hv : alookup key r = some (Value.s v))
    (hok : apply_conversions conversion_mappings r = .ok r') :
    alookup key r' = some (scalarResult (mappingOf key) v) ∧
      (¬(isdigitStr v = true ∧
          (alookupN (strToNat v) (mappingOf key)).isSome = true) →
        alookup key r' = some (Value.s v)) := by
  have hmain : alookup key r' = some (scalarResult (mappingOf key) v) := by
    rcases hkey with h | h | h <;> subst h
    · exact apply_conversions_scalar_at [] _ _ _ v r r' (by decide)
        (by decide) (by decide) hv hok
    · exact apply_conversions_scalar_at [("flood_gas_type", mappingOf "flood_gas_type")]
        _ _ _ v r r' (by decide) (by decide) (by decide) hv hok
    · exact apply_conversions_scalar_at
        [("flood_gas_type", mappingOf "flood_gas_type"),
         ("upgrader_type", mappingOf "upgrader_type")]
        _ _ _ v r r' (by decide) (by decide) (by decide) hv hok
  refine ⟨hmain, fun hno => ?_⟩
  rw [hmain]
  by_cases hd : isdigitStr v = true
  · cases hl : alookupN (strToNat v) (mappingOf key) with
    | some lbl => exact absurd ⟨hd, by simp [hl]⟩ hno
    | none => simp [scalarResult, hd, hl]
  · simp [scalarResult, hd]

theorem scalar_codes_require_digit_strings_witness :
    alookup "upgrader_type" [("upgrader_type", Value.s "2.0")]
        = some (Value.s "2.0") ∧
    apply_conversions conversion_mappings [("upgrader_type", Value.s "2.0")]
        = .ok [("upgrader_type", Value.s "2.0")] ∧
    (alookupN 2 (mappingOf "upgrader_type")).isSome = true ∧
    alookup "upgrader_type" [("upgrader_type", Value.s "2.0")]
        = some (Value.s "2.0") :=
  ⟨rfl, rfl, rfl,
    (scalar_codes_require_digit_strings
      [("upgrader_type", Value.s "2.0")] [("upgrader_type", Value.s "2.0")]
      "upgrader_type" "2.0" (Or.inr (Or.inl rfl)) rfl rfl).2 (by decide)⟩

/-- Erasing the last index of a `take (k+1)` prefix shortens it by one. -/
lemma eraseIdx_take_append_drop (l : List Cell) (k j : Nat)
    (hk : k + 1 ≤ l.length) :
    (l.take (k + 1) ++ l.drop j).eraseIdx k = l.take k ++ l.drop j := by
  have hlen : (l.take (k + 1)).length = k + 1 := by
    simp [List.length_take]; omega
  rw [List.eraseIdx_eq_take_drop_succ, List.take_append_eq_append_take,
    List.drop_append_eq_append_drop, hlen]
  have h1 : min k (k + 1) = k := Nat.min_eq_left (Nat.le_succ k)
  have h2 : (l.take (k + 1)).drop (k + 1) = [] := by
    apply List.drop_eq_nil_of_le
    omega
  simp [List.take_take, h1, h2, Nat.sub_self]

/-- C3 (amended): the two one-hot lists are each formed from THREE
consecutive positions of the 69-value extraction (`values[51:54]` and
`values[54:57]`), while the pop loop removes the four slots 52–55 — leaving
slot 51 (the first cell of the first list) and slot 56 (the last cell of the
second list) in the flat sequence, whose length then matches the 65-name
parameter list (the two leftover slots land on the `ecosystem_richness` /
`field_development_intensity` names, later overwritten by the lists). -/
theorem onehot_slices_amended (values : List Cell) (h : values.length = 69) :
    popSpecial values = some (values.take 52 ++ values.drop 56) ∧
    (values.take 52 ++ values.drop 56).length = parameters.length ∧
    (ecosystemSlice values).length = 3 ∧
    (fdiSlice values).length = 3 ∧
    parameters[51]? = some "ecosystem_richness" ∧
    parameters[52]? = some "field_development_intensity" := by
  have s1 : popAt values 55 = some (values.take 55 ++ values.drop 56) := by
    simp [popAt, h]
    rw [List.eraseIdx_eq_take_drop_succ]
  have hl1 : (values.take 55 ++ values.drop 56).length = 68 := by
    simp [List.length_take, List.length_drop, h]
  have e2 := eraseIdx_take_append_drop values 54 56 (by omega)
  norm_num at e2
  have s2 : popAt (values.take 55 ++ values.drop 56) 54
      = some (values.take 54 ++ values.drop 56) := by
    simp [popAt, hl1, e2]
  have hl2 : (values.take 54 ++ values.drop 56).length = 67 := by
    simp [List.length_take, List.length_drop, h]
  have e3 := eraseIdx_take_append_drop values 53 56 (by omega)
  norm_num at e3
  have s3 : popAt (values.take 54 ++ values.drop 56) 53
      = some (values.take 53 ++ values.drop 56) := by
    simp [popAt, hl2, e3]
  have hl3 : (values.take 53 ++ values.drop 56).length = 66 := by
    simp [List.length_take, List.length_drop, h]
  have e4 := eraseIdx_take_append_drop values 52 56 (by omega)
  norm_num at e4
  have s4 : popAt (values.take 53 ++ values.drop 56) 52
      = some (values.take 52 ++ values.drop 56) := by
    simp [popAt, hl3, e4]
  refine ⟨?_, ?_, ?_, ?_, ?_, ?_⟩
  · simp [popSpecial, s1, s2, s3, s4]
  · have hp : parameters.length = 65 := rfl
    simp [List.length_take, List.length_drop, h, hp]
  · simp [ecosystemSlice, List.length_take, List.length_drop, h]
  · simp [fdiSlice, List.length_take, List.length_drop, h]
  · rfl
  · rfl

theorem onehot_slices_amended_witness :
    vals69.length = 69 ∧
    (popSpecial vals69 = some (vals69.take 52 ++ vals69.drop 56) ∧
      (vals69.take 52 ++ vals69.drop 56).length = parameters.length ∧
      (ecosystemSlice vals69).length = 3 ∧
      (fdiSlice vals69).length = 3 ∧
      parameters[51]? = some "ecosystem_richness" ∧
      parameters[52]? = some "field_development_intensity") :=
  ⟨rfl, onehot_slices_amended vals69 rfl⟩

/-- C3 (counterexample): on a concrete 69-value extraction whose cells are
labelled by position, each special list has THREE cells, not four, and the
raw slots 51 and 56 — both used by the special lists — survive the pop loop
and remain in the flat sequence that is zipped onto the parameter names. -/
theorem onehot_slices_counterexample :
    ecosystemSlice vals69 = [Cell.str "51", Cell.str "52", Cell.str "53"] ∧
    fdiSlice vals69 = [Cell.str "54", Cell.str "55", Cell.str "56"] ∧
    Cell.str "51" ∈ (popSpecial vals69).getD [] ∧
    Cell.str "56" ∈ (popSpecial vals69).getD [] ∧
    Cell.str "52" ∉ (popSpecial vals69).getD [] := by
  refine ⟨rfl, rfl, ?_, ?_, by decide⟩
  · decide
  · decide

/-- The emitted leaf for a GOR/WOR key carries exactly the fixed-up value. -/
lemma findLeaf_fieldKids (key : String) (hk : key = "GOR" ∨ key = "WOR") :
    ∀ fu : List (String × String),
      findLeaf key (fieldKids fu) = (alookup key fu).map gorFix
  | [] => by simp [fieldKids, findLeaf, alookup]
  | (k, v) :: rest => by
    by_cases hkey : k = key
    · subst hkey
      have hnp : ¬(k = "fraction_diluent" ∨ k = "heater_treater") := by
        rcases hk with h | h <;> rw [h] <;> decide
      simp [fieldKids, entryNodes, hnp, hk, findLeaf, alookup, Node.tag,
        Node.attrs, Node.text]
    · by_cases hp : k = "fraction_diluent" ∨ k = "heater_treater"
      · simp [fieldKids, entryNodes, hp, findLeaf, Node.tag,
          findLeaf_fieldKids key hk rest, alookup, hkey]
      · simp [fieldKids, entryNodes, hp, findLeaf, Node.tag, Node.attrs,
          findLeaf_fieldKids key hk rest, alookup, hkey]

/-- The numeric value of a parsed literal is zero exactly when every
mantissa digit is zero (sign and exponent cannot make a non-zero mantissa
vanish). -/
lemma ratValue_eq_zero_iff (neg : Bool) (ip fp : List Char) (e : Int) :
    ratValue neg ip fp e = 0 ↔
      digitsToNat ip = 0 ∧ digitsToNat fp = 0 := by
  have hpow : ((10 : Rat) ^ fp.length) ≠ 0 := by positivity
  have hmant : ratMant ip fp = 0 ↔
      (digitsToNat ip = 0 ∧ digitsToNat fp = 0) := by
    unfold ratMant
    rw [add_eq_zero_iff_of_nonneg (by positivity) (by positivity)]
    rw [div_eq_zero_iff]
    simp [hpow]
  have hmag : ratMag ip fp e = 0 ↔
      (digitsToNat ip = 0 ∧ digitsToNat fp = 0) := by
    unfold ratMag
    split
    · rw [mul_eq_zero]
      simp [hmant, pow_eq_zero_iff]
    · rw [div_eq_zero_iff]
      simp [hmant, pow_eq_zero_iff]
  unfold ratValue
  cases neg with
  | true => rw [if_pos rfl, neg_eq_zero, hmag]
  | false => rw [if_neg Bool.false_ne_true, hmag]

/-- The epsilon constant itself does not denote zero. -/
lemma parseFloat_eps_ne_zero : parseFloat "0.00001" ≠ some 0 := by
  have hp : parseParts "0.00001"
      = some (false, ['0'], ['0', '0', '0', '0', '1'], 0) := rfl
  simp only [parseFloat, hp]
  intro h
  have h0 : ratValue false ['0'] ['0', '0', '0', '0', '1'] 0 = 0 :=
    Option.some_inj.mp h
  rw [ratValue_eq_zero_iff] at h0
  have h1 : digitsToNat ['0', '0', '0', '0', '1'] = 1 := by decide
  rw [h1] at h0
  exact absurd h0.2 one_ne_zero

/-- Whatever `gorFix` outputs, it never denotes zero. -/
lemma gorFix_ne_zero (value : String) : parseFloat (gorFix value) ≠ some 0 := by
  unfold gorFix
  cases hp : parseFloat value with
  | none => exact parseFloat_eps_ne_zero
  | some q =>
    by_cases hq : q = 0
    · simpa [hq] using parseFloat_eps_ne_zero
    · simp only [if_neg hq]
      rw [hp]
      simp [hq]

/-- C1: in the Field element built by `create_field_element`, a GOR or WOR
leaf's text is the epsilon constant `"0.00001"` precisely when the record
value fails to parse as a float or parses to exactly zero, and is the
unchanged record value otherwise; consequently the persisted text never
denotes numeric zero. -/
theorem gor_wor_never_zero (name : String) (fu : List (String × String))
    (key value : String) (hk : key = "GOR" ∨ key = "WOR")
    (hv : alookup key fu = some value) :
    findLeaf key (create_field_element name fu).kids =
      some (if parseFloat value = none ∨ parseFloat value = some 0
            then "0.00001" else value) ∧
    ∀ t, findLeaf key (create_field_element name fu).kids = some t →
      parseFloat t ≠ some 0 := by
  have hfl : findLeaf key (create_field_element name fu).kids
      = some (gorFix value) := by
    simp [create_field_element, Node.kids, Node.tag, findLeaf,
      findLeaf_fieldKids key hk fu, hv]
  have hchar : gorFix value =
      (if parseFloat value = none ∨ parseFloat value = some 0
       then "0.00001" else value) := by
    unfold gorFix
    cases hp : parseFloat value with
    | none => simp
    | some q =>
      by_cases hq : q = 0
      · subst hq; simp
      · simp [hq]
  refine ⟨by rw [hfl, hchar], fun t ht => ?_⟩
  rw [hfl] at ht
  cases ht
  exact gorFix_ne_zero value

theorem gor_wor_never_zero_witness :
    alookup "GOR" [("GOR", "0")] = some "0" ∧
    findLeaf "GOR" (create_field_element "F" [("GOR", "0")]).kids =
      some (if parseFloat "0" = none ∨ parseFloat "0" = some 0
            then "0.00001" else "0") :=
  ⟨rfl, (gor_wor_never_zero "F" [("GOR", "0")] "GOR" "0" (Or.inl rfl) rfl).1⟩

lemma isFieldTemplate_create (nm : String) (r : List (String × String)) :
    isFieldTemplate (create_field_element nm r) = true := by
  simp [isFieldTemplate, create_field_element, Node.tag, Node.attrs, alookup]

lemma nodeName_create (nm : String) (r : List (String × String)) :
    nodeName (create_field_element nm r) = some nm := by
  simp [nodeName, create_field_element, Node.attrs, alookup]

lemma fieldNames_cons_pos (n : Node) (d : List Node)
    (h : isFieldTemplate n = true) :
    fieldNames (n :: d) = nodeName n :: fieldNames d := by
  simp [fieldNames, List.filter_cons, h]

lemma fieldNames_cons_neg (n : Node) (d : List Node)
    (h : isFieldTemplate n = false) :
    fieldNames (n :: d) = fieldNames d := by
  simp [fieldNames, List.filter_cons, h]

lemma fieldsNamed_cons_pos (nm : String) (n : Node) (d : List Node)
    (hf : isFieldTemplate n = true) (hn : nodeName n = some nm) :
    fieldsNamed nm (n :: d) = n :: fieldsNamed nm d := by
  simp [fieldsNamed, List.filter_cons, hf, hn]

lemma fieldsNamed_cons_neg (nm : String) (n : Node) (d : List Node)
    (h : ¬(isFieldTemplate n = true ∧ nodeName n = some nm)) :
    fieldsNamed nm (n :: d) = fieldsNamed nm d := by
  have hfalse : (isFieldTemplate n && decide (nodeName n = some nm)) = false := by
    cases hb : isFieldTemplate n
    · simp
    · have hn : nodeName n ≠ some nm := fun he => h ⟨hb, he⟩
      simp [hn]
  simp [fieldsNamed, List.filter_cons, hfalse]

lemma fieldsNamed_append (nm : String) (d1 d2 : List Node) :
    fieldsNamed nm (d1 ++ d2) = fieldsNamed nm d1 ++ fieldsNamed nm d2 := by
  simp [fieldsNamed, List.filter_append]

/-- A document without `nm` among its field names has no field named `nm`. -/
lemma fieldsNamed_eq_nil (nm : String) (d : List Node)
    (h : some nm ∉ fieldNames d) : fieldsNamed nm d = [] := by
  induction d with
  | nil => rfl
  | cons n rest ih =>
    by_cases hf : isFieldTemplate n = true
    · rw [fieldNames_cons_pos n rest hf] at h
      have hn : nodeName n ≠ some nm := fun he => h (he ▸ List.mem_cons_self _ _)
      rw [fieldsNamed_cons_neg nm n rest (fun hh => hn hh.2)]
      exact ih (fun hm => h (List.mem_cons_of_mem _ hm))
    · rw [fieldNames_cons_neg n rest (by simpa using hf)] at h
      rw [fieldsNamed_cons_neg nm n rest (fun hh => hf hh.1)]
      exact ih h

lemma removeFirstField_sublist (nm : String) (d : List Node) :
    List.Sublist (removeFirstField nm d) d := by
  induction d with
  | nil => exact List.Sublist.refl []
  | cons n rest ih =>
    by_cases hm : isFieldTemplate n = true ∧ nodeName n = some nm
    · simp only [removeFirstField, if_pos hm]
      exact List.sublist_cons_self n rest
    · simp only [removeFirstField, if_neg hm]
      exact List.Sublist.cons₂ n ih

lemma fieldNames_sublist {d1 d2 : List Node} (h : List.Sublist d1 d2) :
    List.Sublist (fieldNames d1) (fieldNames d2) :=
  (h.filter _).map _

/-- After removing the first field named `nm` from a duplicate-free
document, no field named `nm` remains. -/
lemma not_mem_fieldNames_removeFirstField (nm : String) (d : List Node)
    (h : (fieldNames d).Nodup) :
    some nm ∉ fieldNames (removeFirstField nm d) := by
  induction d with
  | nil => simp [removeFirstField, fieldNames]
  | cons n rest ih =>
    by_cases hm : isFieldTemplate n = true ∧ nodeName n = some nm
    · simp only [removeFirstField, if_pos hm]
      rw [fieldNames_cons_pos n rest hm.1] at h
      rw [← hm.2]
      exact (List.nodup_cons.mp h).1
    · simp only [removeFirstField, if_neg hm]
      by_cases hf : isFieldTemplate n = true
      · have hn : nodeName n ≠ some nm := fun he => hm ⟨hf, he⟩
        rw [fieldNames_cons_pos n rest hf] at h
        rw [fieldNames_cons_pos n _ hf]
        intro hmem
        rcases List.mem_cons.mp hmem with he | hmem2
        · exact hn he.symm
        · exact ih (List.nodup_cons.mp h).2 hmem2
      · rw [fieldNames_cons_neg n rest (by simpa using hf)] at h
        rw [fieldNames_cons_neg n _ (by simpa using hf)]
        exact ih h

/-- Removing the first field named `nm'` does not touch fields named
`nm ≠ nm'`. -/
lemma fieldsNamed_removeFirstField_other (nm nm' : String) (d : List Node)
    (hne : nm ≠ nm') :
    fieldsNamed nm (removeFirstField nm' d) = fieldsNamed nm d := by
  induction d with
  | nil => rfl
  | cons n rest ih =>
    by_cases hm : isFieldTemplate n = true ∧ nodeName n = some nm'
    · simp only [removeFirstField, if_pos hm]
      have hn : ¬(isFieldTemplate n = true ∧ nodeName n = some nm) := by
        rintro ⟨-, he⟩
        rw [hm.2] at he
        exact hne (Option.some_inj.mp he).symm
      rw [fieldsNamed_cons_neg nm n rest hn]
    · simp only [removeFirstField, if_neg hm]
      by_cases hc : isFieldTemplate n = true ∧ nodeName n = some nm
      · rw [fieldsNamed_cons_pos nm n _ hc.1 hc.2,
          fieldsNamed_cons_pos nm n rest hc.1 hc.2, ih]
      · rw [fieldsNamed_cons_neg nm n _ hc, fieldsNamed_cons_neg nm n rest hc, ih]

lemma removeStale_cons (req : List String) (n : Node) (d : List Node) :
    removeStale req (n :: d) =
      if keepNode req n = true then n :: removeStale req d
      else removeStale req d := by
  simp [removeStale, List.filter_cons]

/-- The stale sweep keeps every field whose name is in the required set. -/
lemma fieldsNamed_removeStale_mem (nm : String) (req : List String)
    (d : List Node) (h : nm ∈ req) :
    fieldsNamed nm (removeStale req d) = fieldsNamed nm d := by
  induction d with
  | nil => rfl
  | cons n rest ih =>
    rw [removeStale_cons]
    by_cases hc : isFieldTemplate n = true ∧ nodeName n = some nm
    · have hkeep : keepNode req n = true := by
        simp only [keepNode, hc.2]
        simp [h]
      rw [if_pos hkeep, fieldsNamed_cons_pos nm n _ hc.1 hc.2,
        fieldsNamed_cons_pos nm n rest hc.1 hc.2, ih]
    · by_cases hkeep : keepNode req n = true
      · rw [if_pos hkeep, fieldsNamed_cons_neg nm n _ hc,
          fieldsNamed_cons_neg nm n rest hc, ih]
      · rw [if_neg hkeep, fieldsNamed_cons_neg nm n rest hc, ih]

/-- The stale sweep removes every field whose name is NOT in the required
set. -/
lemma fieldsNamed_removeStale_not_mem (nm : String) (req : List String)
    (d : List Node) (h : nm ∉ req) :
    fieldsNamed nm (removeStale req d) = [] := by
  induction d with
  | nil => rfl
  | cons n rest ih =>
    rw [removeStale_cons]
    by_cases hc : isFieldTemplate n = true ∧ nodeName n = some nm
    · have hkeep : ¬keepNode req n = true := by
        simp only [keepNode, hc.2]
        simp [h, hc.1]
      rw [if_neg hkeep, ih]
    · by_cases hkeep : keepNode req n = true
      · rw [if_pos hkeep, fieldsNamed_cons_neg nm n _ hc, ih]
      · rw [if_neg hkeep, ih]

lemma removeStale_sublist (req : List String) (d : List Node) :
    List.Sublist (removeStale req d) d :=
  List.filter_sublist d

lemma tag_analysisApply (n : Node) : (analysisApply n).tag = n.tag := by
  cases n
  rfl

lemma attrs_analysisApply (n : Node) : (analysisApply n).attrs = n.attrs := by
  cases n
  rfl

lemma isFieldTemplate_of_analysis (n : Node) (h : isAnalysisFUSE n = true) :
    isFieldTemplate n = false ∧ isFieldTemplate (analysisApply n) = false := by
  simp only [isAnalysisFUSE, decide_eq_true_eq] at h
  constructor
  · simp [isFieldTemplate, h.1]
  · simp [isFieldTemplate, tag_analysisApply, h.1]

/-- The Analysis upsert neither adds nor removes nor renames any template
Field node. -/
lemma fieldsNamed_upsertAnalysis (nm : String) (d : List Node) :
    fieldsNamed nm (upsertAnalysis d) = fieldsNamed nm d := by
  induction d with
  | nil =>
    have h2 := (isFieldTemplate_of_analysis
      (Node.mk "Analysis" [("name", "FUSE_run")] "" []) (by decide)).2
    simp only [upsertAnalysis]
    exact fieldsNamed_cons_neg nm _ [] (fun hh => by rw [h2] at hh; cases hh.1)
  | cons n rest ih =>
    by_cases ha : isAnalysisFUSE n = true
    · simp only [upsertAnalysis, if_pos ha]
      obtain ⟨h1, h2⟩ := isFieldTemplate_of_analysis n ha
      rw [fieldsNamed_cons_neg nm _ rest (fun hh => by rw [h2] at hh; cases hh.1),
        fieldsNamed_cons_neg nm n rest (fun hh => by rw [h1] at hh; cases hh.1)]
    · simp only [upsertAnalysis, if_neg ha]
      by_cases hc : isFieldTemplate n = true ∧ nodeName n = some nm
      · rw [fieldsNamed_cons_pos nm n _ hc.1 hc.2,
          fieldsNamed_cons_pos nm n rest hc.1 hc.2, ih]
      · rw [fieldsNamed_cons_neg nm n _ hc, fieldsNamed_cons_neg nm n rest hc, ih]

lemma fieldNames_upsertAnalysis (d : List Node) :
    fieldNames (upsertAnalysis d) = fieldNames d := by
  induction d with
  | nil =>
    have h2 := (isFieldTemplate_of_analysis
      (Node.mk "Analysis" [("name", "FUSE_run")] "" []) (by decide)).2
    simp only [upsertAnalysis]
    exact fieldNames_cons_neg _ [] h2
  | cons n rest ih =>
    by_cases ha : isAnalysisFUSE n = true
    · simp only [upsertAnalysis, if_pos ha]
      obtain ⟨h1, h2⟩ := isFieldTemplate_of_analysis n ha
      rw [fieldNames_cons_neg _ rest h2, fieldNames_cons_neg n rest h1]
    · simp only [upsertAnalysis, if_neg ha]
      by_cases hf : isFieldTemplate n = true
      · rw [fieldNames_cons_pos n _ hf, fieldNames_cons_pos n rest hf, ih]
      · rw [fieldNames_cons_neg n _ (by simpa using hf),
          fieldNames_cons_neg n rest (by simpa using hf), ih]

lemma fieldNames_append (d1 d2 : List Node) :
    fieldNames (d1 ++ d2) = fieldNames d1 ++ fieldNames d2 := by
  simp [fieldNames, List.filter_append]

lemma fieldNames_create (nm : String) (r : List (String × String)) :
    fieldNames [create_field_element nm r] = [some nm] := by
  rw [fieldNames_cons_pos _ [] (isFieldTemplate_create nm r), nodeName_create]
  rfl

lemma fieldsNamed_create_self (nm : String) (r : List (String × String)) :
    fieldsNamed nm [create_field_element nm r] = [create_field_element nm r] := by
  rw [fieldsNamed_cons_pos nm _ [] (isFieldTemplate_create nm r)
    (nodeName_create nm r)]
  rfl

lemma fieldsNamed_create_other (nm nm' : String) (r : List (String × String))
    (hne : nm ≠ nm') :
    fieldsNamed nm [create_field_element nm' r] = [] := by
  refine fieldsNamed_cons_neg nm _ [] ?_
  rintro ⟨-, hn⟩
  rw [nodeName_create] at hn
  exact hne (Option.some_inj.mp hn).symm

/-- One replace step keeps the field-name list duplicate-free. -/
lemma fieldNames_step_nodup (nm : String) (r : List (String × String))
    (d : List Node) (hd : (fieldNames d).Nodup) :
    (fieldNames (removeFirstField nm d ++ [create_field_element nm r])).Nodup := by
  rw [fieldNames_append, fieldNames_create]
  have h1 : (fieldNames (removeFirstField nm d)).Nodup :=
    List.Nodup.sublist (fieldNames_sublist (removeFirstField_sublist nm d)) hd
  have h2 : some nm ∉ fieldNames (removeFirstField nm d) :=
    not_mem_fieldNames_removeFirstField nm d hd
  simp [List.nodup_append, h1, h2]

/-- Records that never mention `nm` leave the fields named `nm` alone. -/
lemma fieldsNamed_upsertFields_not_mem (nm : String)
    (recs : List (String × List (String × String))) :
    ∀ d, nm ∉ recs.map Prod.fst →
      fieldsNamed nm (upsertFields recs d) = fieldsNamed nm d := by
  induction recs with
  | nil => intro d _; rfl
  | cons p rest ih =>
    intro d h
    obtain ⟨nm', r⟩ := p
    simp only [List.map_cons, List.mem_cons] at h
    push_neg at h
    obtain ⟨hne, hrest⟩ := h
    simp only [upsertFields]
    rw [ih _ hrest, fieldsNamed_append,
      fieldsNamed_removeFirstField_other nm nm' d hne,
      fieldsNamed_create_other nm nm' r hne, List.append_nil]

/-- The replace loop preserves key uniqueness. -/
lemma fieldNames_upsertFields_nodup
    (recs : List (String × List (String × String))) :
    ∀ d, (recs.map Prod.fst).Nodup → (fieldNames d).Nodup →
      (fieldNames (upsertFields recs d)).Nodup := by
  induction recs with
  | nil => intro d _ hd; exact hd
  | cons p rest ih =>
    intro d hr hd
    obtain ⟨nm, r⟩ := p
    simp only [upsertFields]
    have hr' : (nm :: rest.map Prod.fst).Nodup := by simpa using hr
    exact ih _ (List.nodup_cons.mp hr').2 (fieldNames_step_nodup nm r d hd)

/-- After the replace loop, a record's field content is exactly the freshly
built element, whatever document it started from (if duplicate-free). -/
lemma fieldsNamed_upsertFields_mem
    (recs : List (String × List (String × String))) :
    ∀ d (nm : String) (r : List (String × String)),
      (recs.map Prod.fst).Nodup → (fieldNames d).Nodup → (nm, r) ∈ recs →
      fieldsNamed nm (upsertFields recs d) = [create_field_element nm r] := by
  induction recs with
  | nil => intro d nm r _ _ hmem; cases hmem
  | cons p rest ih =>
    intro d nm r hr hd hmem
    obtain ⟨nm', r'⟩ := p
    simp only [upsertFields]
    have hr' : (nm' :: rest.map Prod.fst).Nodup := by simpa using hr
    rcases List.mem_cons.mp hmem with heq | hmem2
    · injection heq with h1 h2
      subst h1
      subst h2
      have hnotin : nm ∉ rest.map Prod.fst := (List.nodup_cons.mp hr').1
      rw [fieldsNamed_upsertFields_not_mem nm rest _ hnotin, fieldsNamed_append,
        fieldsNamed_eq_nil nm _ (not_mem_fieldNames_removeFirstField nm d hd),
        List.nil_append, fieldsNamed_create_self nm r]
    · exact ih _ nm r (List.nodup_cons.mp hr').2
        (fieldNames_step_nodup nm' r' d hd) hmem2

/-- The document handed to the replace loop (after the Analysis upsert and
the stale sweep) is duplicate-free whenever the input document was. -/
lemma prepped_nodup (recs : List (String × List (String × String)))
    (doc : List Node) (hd : (fieldNames doc).Nodup) :
    (fieldNames (removeStale (recs.map Prod.fst) (upsertAnalysis doc))).Nodup := by
  have h1 : List.Sublist
      (fieldNames (removeStale (recs.map Prod.fst) (upsertAnalysis doc)))
      (fieldNames (upsertAnalysis doc)) :=
    fieldNames_sublist (removeStale_sublist _ _)
  rw [fieldNames_upsertAnalysis] at h1
  exact List.Nodup.sublist h1 hd

/-- The merged document's field content for any record of the run. -/
lemma mergeDoc_field_content (recs : List (String × List (String × String)))
    (doc : List Node) (nm : String) (r : List (String × String))
    (hr : (recs.map Prod.fst).Nodup) (hd : (fieldNames doc).Nodup)
    (hmem : (nm, r) ∈ recs) :
    fieldsNamed nm (mergeDoc recs doc) = [create_field_element nm r] :=
  fieldsNamed_upsertFields_mem recs _ nm r hr (prepped_nodup recs doc hd) hmem

/-- The merge preserves field-key uniqueness. -/
lemma mergeDoc_nodup (recs : List (String × List (String × String)))
    (doc : List Node) (hr : (recs.map Prod.fst).Nodup)
    (hd : (fieldNames doc).Nodup) :
    (fieldNames (mergeDoc recs doc)).Nodup :=
  fieldNames_upsertFields_nodup recs _ hr (prepped_nodup recs doc hd)

/-- C4: after the merge, no template Field node carrying a name outside the
set of names produced by the current run remains in the document — stale
fields from a previous run are deleted. -/
theorem merge_removes_stale_fields
    (recs : List (String × List (String × String))) (doc : List Node)
    (nm : String) (h : nm ∉ recs.map Prod.fst) :
    fieldsNamed nm (mergeDoc recs doc) = [] := by
  unfold mergeDoc
  rw [fieldsNamed_upsertFields_not_mem nm recs _ h]
  exact fieldsNamed_removeStale_not_mem nm _ _ h

/-- C5: Field keys (name plus the `modifies="template"` marker) stay unique
through the merge: starting from a document with pairwise distinct field
keys and a run whose record names are distinct (dictionary keys), the merged
document never contains two template Field nodes with the same name. -/
theorem merge_unique_field_keys
    (recs : List (String × List (String × String))) (doc : List Node)
    (hr : (recs.map Prod.fst).Nodup) (hd : (fieldNames doc).Nodup) :
    (fieldNames (mergeDoc recs doc)).Nodup :=
  mergeDoc_nodup recs doc hr hd

/-- C6: re-running the merge with the identical records, starting from the
first run's output, yields identical Field node content for every field
name of the run (each is exactly the freshly built element both times), so
the serialized bytes of each Field node agree between the two runs. -/
theorem merge_content_idempotent
    (recs : List (String × List (String × String))) (doc : List Node)
    (nm : String) (r : List (String × String))
    (hr : (recs.map Prod.fst).Nodup) (hd : (fieldNames doc).Nodup)
    (hmem : (nm, r) ∈ recs) :
    fieldsNamed nm (mergeDoc recs doc) = [create_field_element nm r] ∧
    fieldsNamed nm (mergeDoc recs (mergeDoc recs doc)) =
      fieldsNamed nm (mergeDoc recs doc) := by
  refine ⟨mergeDoc_field_content recs doc nm r hr hd hmem, ?_⟩
  rw [mergeDoc_field_content recs (mergeDoc recs doc) nm r hr
      (mergeDoc_nodup recs doc hr hd) hmem,
    mergeDoc_field_content recs doc nm r hr hd hmem]

/-- A pre-existing document holding one stale field from a previous run. -/
def doc0 : List Node :=
  [Node.mk "Field" [("name", "Old"), ("modifies", "template")] "" []]

def recs0 : List (String × List (String × String)) := [("New", [("API", "30")])]

def recs1 : List (String × List (String × String)) :=
  [("A", [("API", "30")]), ("B", [])]

theorem merge_removes_stale_fields_witness :
    "Old" ∉ recs0.map Prod.fst ∧
    fieldsNamed "Old" (mergeDoc recs0 doc0) = [] :=
  ⟨by decide, merge_removes_stale_fields recs0 doc0 "Old" (by decide)⟩

theorem merge_unique_field_keys_witness :
    (recs1.map Prod.fst).Nodup ∧ (fieldNames doc0).Nodup ∧
    (fieldNames (mergeDoc recs1 doc0)).Nodup :=
  ⟨by decide, by decide, merge_unique_field_keys recs1 doc0 (by decide) (by decide)⟩

theorem merge_content_idempotent_witness :
    ("A", [("API", "30")]) ∈ recs1 ∧
    (fieldsNamed "A" (mergeDoc recs1 doc0) =
        [create_field_element "A" [("API", "30")]] ∧
      fieldsNamed "A" (mergeDoc recs1 (mergeDoc recs1 doc0)) =
        fieldsNamed "A" (mergeDoc recs1 doc0)) :=
  ⟨by decide,
    merge_content_idempotent recs1 doc0 "A" [("API", "30")]
      (by decide) (by decide) (by decide)⟩

end FUSEtoOPGEE
